import Mathlib

/-!
Verification of the Unix backend of the `globalenv` crate (`src/lib.rs`).

The crate exposes two operations, `set_var` and `unset_var`, that persist an
environment variable into the user's shell startup file (`~/.zshenv` for zsh,
`~/.bashrc` for bash) and mirror the change into the current process's
environment.

The embedding models the outside world as an explicit state `SysState`:
the process environment (`procEnv`), the file system (`fileSys`) and two sets
of paths on which file I/O fails (`readFault` for `fs::read_to_string`,
`writeFault` for `OpenOptions::open`/`write`/`fs::write`, modelling
`std::io::Error` results).
Both operations are translated as state-passing functions returning the
`Result` value together with the state at the moment of return, so that the
absence of mutation on error paths is observable.
-/

namespace GlobalEnv

/-- `EnvError` from `src/lib.rs` (lines 18-25). -/
inductive EnvError where
  | UnsupportedShell
  | IOError
  | VarError
deriving DecidableEq, Repr

/-- The outside world as seen by the crate: the current process's environment,
the file system (path ↦ contents), and the sets of paths on which reading
resp. writing fails (fault injection standing for `std::io::Error`). -/
structure SysState where
  procEnv : String → Option String
  fileSys : String → Option String
  readFault : String → Bool
  writeFault : String → Bool

/-- Model of `std::env::set_var` (total update of the process environment). -/
def envSetVar (s : SysState) (var value : String) : SysState :=
  { s with procEnv := fun n => if n = var then some value else s.procEnv n }

/-- Model of `std::env::remove_var`. -/
def envRemoveVar (s : SysState) (var : String) : SysState :=
  { s with procEnv := fun n => if n = var then none else s.procEnv n }

/-- Model of `std::fs::read_to_string`: fails with an I/O error when the file
is absent or when a fault is injected on the path. `From<std::io::Error>`
(lib.rs lines 40-44) converts the failure into `EnvError::IOError`. -/
def fsRead (s : SysState) (p : String) : Except EnvError String :=
  if s.readFault p then .error .IOError
  else
    match s.fileSys p with
    | some c => .ok c
    | none => .error .IOError

/-- Model of `OpenOptions::new().append(true).create(true).open(..)` followed
by `write`: creates the file when absent, appends `data`, fails on an injected
fault. -/
def fsAppendOp (s : SysState) (p data : String) : Except EnvError SysState :=
  if s.writeFault p then .error .IOError
  else .ok { s with
    fileSys := fun q => if q = p then some (((s.fileSys p).getD "") ++ data) else s.fileSys q }

/-- Model of `std::fs::write`: truncating write (creates or overwrites). -/
def fsWriteOp (s : SysState) (p data : String) : Except EnvError SysState :=
  if s.writeFault p then .error .IOError
  else .ok { s with
    fileSys := fun q => if q = p then some data else s.fileSys q }

/-- Model of `PathBuf::push`: joins with a `/` separator unless the base
already ends with one. -/
def pathJoin (a b : String) : String :=
  if a.toList.getLast? = some '/' then a ++ b else a ++ "/" ++ b

/-- The `match shell.as_str()` of lib.rs lines 70-74 / 121-125: shell binary
path ↦ startup-file name. -/
def shellEnvFile (shell : String) : Option String :=
  if shell = "/bin/zsh" then some ".zshenv"
  else if shell = "/bin/bash" then some ".bashrc"
  else none

/-- Lines 67-78 of `set_var` (repeated verbatim at lines 118-129 of
`unset_var`): read `$HOME` and `$SHELL` (a missing variable is
`env::VarError`, converted by `From` into `EnvError::VarError`), map the shell
to its startup file (unknown shell is `EnvError::UnsupportedShell`), and build
the file path. -/
def resolveProfile (s : SysState) : Except EnvError String :=
  match s.procEnv "HOME" with
  | none => .error .VarError
  | some homedir =>
    match s.procEnv "SHELL" with
    | none => .error .VarError
    | some shell =>
      match shellEnvFile shell with
      | none => .error .UnsupportedShell
      | some envfile => .ok (pathJoin homedir envfile)

/-- Substring test on character lists: `hasSub p l` holds iff `p` occurs
contiguously in `l` (the semantics of Rust `str::contains` with a `&str`
pattern). -/
def hasSub (p : List Char) : List Char → Bool
  | [] => p.isEmpty
  | c :: l => p.isPrefixOf (c :: l) || hasSub p l

/-- Model of Rust `String::contains(&pat)`. -/
def strContains (s pat : String) : Bool := hasSub pat.toList s.toList

/-- The literal line built at lib.rs lines 83-88:
`"export " + var + "=" + value + "\n"`. -/
def exportLine (var value : String) : String :=
  "export " ++ var ++ "=" ++ value ++ "\n"

/-- The literal fragment built at lib.rs lines 131-135:
`"export " + var + "="`. -/
def exportKey (var : String) : String :=
  "export " ++ var ++ "="

/-- Split a character list at every `'\n'`, keeping the chunks (the separators
are dropped); always returns at least one chunk. -/
def splitNlChars : List Char → List (List Char)
  | [] => [[]]
  | c :: cs =>
    if c = '\n' then [] :: splitNlChars cs
    else
      match splitNlChars cs with
      | [] => [[c]]
      | l :: ls => (c :: l) :: ls

/-- Strip one trailing `'\r'` (the `\r\n` handling of Rust `str::lines`). -/
def stripCR (c : List Char) : List Char :=
  if c.getLast? = some '\r' then c.dropLast else c

/-- Assemble the chunks of `splitNlChars` into Rust's lines: every
`'\n'`-terminated chunk loses one trailing `'\r'`; a final empty chunk (the
string ended with `'\n'`) is dropped; a final non-empty chunk (no trailing
newline) is kept as-is. -/
def rustLinesAux : List (List Char) → List String
  | [] => []
  | [c] => if c.isEmpty then [] else [String.mk c]
  | c :: cs => String.mk (stripCR c) :: rustLinesAux cs

/-- Model of Rust `str::lines()`. -/
def rustLines (s : String) : List String :=
  rustLinesAux (splitNlChars s.toList)

/-- The accumulation loop of lib.rs line 143:
`for l in kept { updated_env.push_str(l); updated_env.push_str("\n") }`. -/
def rejoinLines (ls : List String) : String :=
  ls.foldl (fun acc l => acc ++ l ++ "\n") ""

/-- Unix `set_var` (lib.rs lines 64-103). After resolving the profile path the
function reads the file (`?`), builds the export line, and either (line 90)
skips the file write when the exact line is already contained in the file, or
(lines 93-97) appends the line; in both cases it finally mirrors the value
into the process environment (`env::set_var`). -/
def set_var (var value : String) (s : SysState) : Except EnvError Unit × SysState :=
  match resolveProfile s with
  | .error e => (.error e, s)
  | .ok envfilepath =>
    match fsRead s envfilepath with
    | .error e => (.error e, s)
    | .ok env =>
      if strContains env (exportLine var value) then (.ok (), envSetVar s var value)
      else
        match fsAppendOp s envfilepath (exportLine var value) with
        | .error e => (.error e, s)
        | .ok s1 => (.ok (), envSetVar s1 var value)

/-- Unix `unset_var` (lib.rs lines 115-150). After resolving the profile path
the function reads the file (`?`); when the file does not contain the
substring `export var=` it only clears the process-local variable (line 138);
otherwise it rebuilds the file from the lines that do not contain `var` as a
substring (line 143), writes it back (`fs::write`, line 144) and clears the
process-local variable. -/
def unset_var (var : String) (s : SysState) : Except EnvError Unit × SysState :=
  match resolveProfile s with
  | .error e => (.error e, s)
  | .ok envfilepath =>
    match fsRead s envfilepath with
    | .error e => (.error e, s)
    | .ok env =>
      if !strContains env (exportKey var) then (.ok (), envRemoveVar s var)
      else
        let updated := rejoinLines ((rustLines env).filter (fun l => !strContains l var))
        match fsWriteOp s envfilepath updated with
        | .error e => (.error e, s)
        | .ok s1 => (.ok (), envRemoveVar s1 var)

/-- Number of occurrences of `p` as a contiguous sublist of the second
argument (counted by starting position). -/
def countOcc (p : List Char) : List Char → Nat
  | [] => 0
  | c :: l => (if p.isPrefixOf (c :: l) then 1 else 0) + countOcc p l

/-- Occurrence count at the `String` level. -/
def countOccStr (s pat : String) : Nat := countOcc pat.toList s.toList

deriving instance DecidableEq for Except

/-! ### Substring machinery -/

theorem str_toList_app (a b : String) : (a ++ b).toList = a.toList ++ b.toList := rfl

theorem str_toList_mk (l : List Char) : (String.mk l).toList = l := rfl

theorem inf_of_pref {p l : List Char} (h : p <+: l) : p <:+: l := by
  obtain ⟨t, ht⟩ := h
  exact ⟨[], t, by simpa using ht⟩

theorem inf_ext_left {p a b : List Char} (h : p <:+: b) : p <:+: a ++ b := by
  obtain ⟨s, t, ht⟩ := h
  exact ⟨a ++ s, t, by rw [← ht]; simp [List.append_assoc]⟩

theorem inf_ext_right {p a b : List Char} (h : p <:+: a) : p <:+: a ++ b := by
  obtain ⟨s, t, ht⟩ := h
  exact ⟨s, t ++ b, by rw [← ht]; simp [List.append_assoc]⟩

theorem cons_pref {a b : Char} {p l : List Char} (h : (a :: p) <+: (b :: l)) :
    a = b ∧ p <+: l := by
  obtain ⟨t, ht⟩ := h
  injection ht with h1 h2
  exact ⟨h1, t, h2⟩

theorem pref_cons_ext {a : Char} {p l : List Char} (h : p <+: l) :
    (a :: p) <+: (a :: l) := by
  obtain ⟨t, ht⟩ := h
  exact ⟨t, by rw [List.cons_append, ht]⟩

theorem inf_cons_split {p l : List Char} {x : Char} (h : p <:+: (x :: l)) :
    p <+: (x :: l) ∨ p <:+: l := by
  obtain ⟨s, t, ht⟩ := h
  cases s with
  | nil => exact Or.inl ⟨t, by simpa using ht⟩
  | cons a s' =>
    right
    simp only [List.cons_append] at ht
    injection ht with _ h2
    exact ⟨s', t, h2⟩

theorem pref_no_sep {p : List Char} {sep : Char} (hn : sep ∉ p) :
    ∀ {xs ys : List Char}, p <+: (xs ++ sep :: ys) → p <+: xs := by
  induction p with
  | nil => exact fun _ => List.nil_prefix
  | cons a p' ih =>
    intro xs ys h
    cases xs with
    | nil =>
      obtain ⟨h1, _⟩ := cons_pref h
      exact absurd (h1 ▸ List.mem_cons_self a p') hn
    | cons x xs' =>
      obtain ⟨h1, h2⟩ := cons_pref h
      subst h1
      exact pref_cons_ext (ih (fun hm => hn (List.mem_cons_of_mem _ hm)) h2)

theorem inf_sep_split {p : List Char} {sep : Char} (hn : sep ∉ p) :
    ∀ {xs ys : List Char}, p <:+: (xs ++ sep :: ys) → p <:+: xs ∨ p <:+: ys := by
  intro xs
  induction xs with
  | nil =>
    intro ys h
    rcases inf_cons_split (by simpa using h) with hp | hi
    · cases p with
      | nil => exact Or.inl (inf_of_pref List.nil_prefix)
      | cons a p' =>
        obtain ⟨h1, _⟩ := cons_pref hp
        exact absurd (h1 ▸ List.mem_cons_self a p') hn
    · exact Or.inr hi
  | cons x xs' ih =>
    intro ys h
    rcases inf_cons_split (by simpa using h) with hp | hi
    · exact Or.inl (inf_of_pref (pref_no_sep hn (by simpa using hp)))
    · rcases ih hi with h1 | h2
      · exact Or.inl (List.infix_cons h1)
      · exact Or.inr h2

theorem inf_nil_eq {p : List Char} (h : p <:+: ([] : List Char)) : p = [] := by
  obtain ⟨s, t, ht⟩ := h
  have := List.append_eq_nil.mp (List.append_eq_nil.mp ht).1
  exact this.2

theorem hasSub_iff {p l : List Char} : hasSub p l = true ↔ p <:+: l := by
  induction l with
  | nil =>
    simp only [hasSub, List.isEmpty_iff]
    constructor
    · intro h
      rw [h]
    · exact fun h => inf_nil_eq h
  | cons c l ih =>
    simp only [hasSub, Bool.or_eq_true, ih, List.isPrefixOf_iff_prefix]
    constructor
    · rintro (h | h)
      · exact inf_of_pref h
      · exact List.infix_cons h
    · exact fun h => inf_cons_split h

theorem strContains_iff {s pat : String} :
    strContains s pat = true ↔ pat.toList <:+: s.toList := hasSub_iff

theorem strContains_false_iff {s pat : String} :
    strContains s pat = false ↔ ¬ pat.toList <:+: s.toList := by
  rw [← strContains_iff]
  cases strContains s pat <;> simp

/-- If `s` does not contain `pat1` and `pat1` occurs inside `pat2`, then `s`
does not contain `pat2` either. -/
theorem contains_mono {s pat1 pat2 : String} (hsub : pat1.toList <:+: pat2.toList)
    (h : strContains s pat1 = false) : strContains s pat2 = false := by
  rw [strContains_false_iff] at h ⊢
  exact fun hc => h (hsub.trans hc)

/-! ### Rejoined lines -/

/-- The characters of a list of lines once each line is written back followed
by a newline, as `unset_var`'s rebuild loop does. -/
def nlBlocks (ls : List String) : List Char :=
  (ls.map (fun l => l.toList ++ ['\n'])).flatten

theorem nlBlocks_nil : nlBlocks [] = [] := rfl

theorem nlBlocks_cons (l : List String) (x : String) :
    nlBlocks (x :: l) = x.toList ++ ['\n'] ++ nlBlocks l := by
  simp [nlBlocks, List.append_assoc]

theorem rejoin_toList (ls : List String) : (rejoinLines ls).toList = nlBlocks ls := by
  suffices h : ∀ a : String,
      (ls.foldl (fun acc l => acc ++ l ++ "\n") a).toList = a.toList ++ nlBlocks ls by
    simpa using h ""
  induction ls with
  | nil => intro a; simp [nlBlocks]
  | cons l ls ih =>
    intro a
    rw [List.foldl_cons, ih, nlBlocks_cons]
    simp [str_toList_app, List.append_assoc]

/-- A newline-free, non-empty pattern occurring in the rebuilt file occurs in
one of the lines. -/
theorem inf_nlBlocks {p : List Char} (hn : '\n' ∉ p) (hne : p ≠ []) :
    ∀ {ls : List String}, p <:+: nlBlocks ls → ∃ l ∈ ls, p <:+: l.toList := by
  intro ls
  induction ls with
  | nil =>
    intro h
    rw [nlBlocks_nil] at h
    exact absurd (inf_nil_eq h) hne
  | cons l ls ih =>
    intro h
    rw [nlBlocks_cons, List.append_assoc, List.singleton_append] at h
    rcases inf_sep_split hn h with h1 | h2
    · exact ⟨l, List.mem_cons_self l ls, h1⟩
    · obtain ⟨l', hm, hi⟩ := ih h2
      exact ⟨l', List.mem_cons_of_mem _ hm, hi⟩

/-- Each line written back occurs, with its newline, in the rebuilt file. -/
theorem block_inf_nlBlocks {x : String} :
    ∀ {ls : List String}, x ∈ ls → (x.toList ++ ['\n']) <:+: nlBlocks ls := by
  intro ls
  induction ls with
  | nil => intro hm; cases hm
  | cons l ls ih =>
    intro hm
    rw [nlBlocks_cons]
    rcases List.mem_cons.mp hm with rfl | hm'
    · exact inf_ext_right ⟨[], [], by simp⟩
    · exact inf_ext_left (ih hm')

/-- If no line of `ls` contains the newline-free non-empty pattern `pat`, then
the rebuilt file does not contain it either. -/
theorem rejoin_not_contains {pat : String} (hn : '\n' ∉ pat.toList)
    (hne : pat.toList ≠ []) {ls : List String}
    (hl : ∀ l ∈ ls, strContains l pat = false) :
    strContains (rejoinLines ls) pat = false := by
  rw [strContains_false_iff, rejoin_toList]
  intro h
  obtain ⟨l, hm, hi⟩ := inf_nlBlocks hn hne h
  exact strContains_false_iff.mp (hl l hm) hi

/-! ### The export line and key -/

theorem exportLine_toList (var value : String) :
    (exportLine var value).toList =
      ("export ".toList ++ var.toList ++ ['='] ++ value.toList) ++ ['\n'] := by
  simp [exportLine, str_toList_app, List.append_assoc]

theorem exportKey_toList (var : String) :
    (exportKey var).toList = "export ".toList ++ var.toList ++ ['='] := by
  simp [exportKey, str_toList_app, List.append_assoc]

theorem var_inf_exportKey (var : String) : var.toList <:+: (exportKey var).toList := by
  rw [exportKey_toList]
  exact ⟨"export ".toList, ['='], by simp [List.append_assoc]⟩

theorem exportKey_inf_exportLine (var value : String) :
    (exportKey var).toList <:+: (exportLine var value).toList := by
  rw [exportKey_toList, exportLine_toList]
  exact ⟨[], value.toList ++ ['\n'], by simp [List.append_assoc]⟩

theorem nl_not_mem_exportKey {var : String} (hnl : '\n' ∉ var.toList) :
    '\n' ∉ (exportKey var).toList := by
  rw [exportKey_toList]
  intro h
  rcases List.mem_append.mp h with h1 | h2
  · rcases List.mem_append.mp h1 with h3 | h4
    · revert h3; decide
    · exact hnl h4
  · revert h2; decide

theorem exportKey_ne_nil (var : String) : (exportKey var).toList ≠ [] := by
  rw [exportKey_toList]
  simp [List.append_assoc]

/-! ### Occurrence counting -/

theorem pref_ext_app {p l t : List Char} (h : p <+: l) : p <+: (l ++ t) := by
  obtain ⟨u, hu⟩ := h
  exact ⟨u ++ t, by rw [← hu]; simp [List.append_assoc]⟩

theorem countOcc_zero_of_short {p : List Char} :
    ∀ {l : List Char}, l.length < p.length → countOcc p l = 0 := by
  intro l
  induction l with
  | nil => intro _; rfl
  | cons c l ih =>
    intro h
    have hnp : ¬ p <+: (c :: l) := fun hp => by
      have := List.IsPrefix.length_le hp
      omega
    simp only [countOcc]
    rw [if_neg (fun hb => hnp (List.isPrefixOf_iff_prefix.mp hb)), ih (by simp at h; omega)]

theorem countOcc_zero_of_no_sub {p : List Char} :
    ∀ {l : List Char}, hasSub p l = false → countOcc p l = 0 := by
  intro l
  induction l with
  | nil => intro _; rfl
  | cons c l ih =>
    intro h
    simp only [hasSub, Bool.or_eq_false_iff] at h
    simp only [countOcc, h.1, if_false, ih h.2]
    simp

/-- The period argument: a pattern whose only newline is its last character
cannot straddle the boundary when it is appended after other text, so if it is
a prefix of `b ++ pat` with `b` non-empty, it is already a prefix of `b`. -/
theorem pref_app_self {q b : List Char} (hq : '\n' ∉ q) (hb : b ≠ [])
    (h : (q ++ ['\n']) <+: (b ++ (q ++ ['\n']))) : (q ++ ['\n']) <+: b := by
  obtain ⟨t, ht⟩ := h
  have hq1 : (q ++ ['\n']).length = q.length + 1 := by simp
  have hself : ((q ++ ['\n']) ++ t).take (q ++ ['\n']).length = q ++ ['\n'] := by
    rw [List.take_append_eq_append_take, List.take_length, Nat.sub_self, List.take_zero,
      List.append_nil]
  have hcong := congrArg (List.take (q ++ ['\n']).length) ht
  rcases le_or_lt (q ++ ['\n']).length b.length with hlen | hlen
  · have h2 : (b ++ (q ++ ['\n'])).take (q ++ ['\n']).length =
        b.take (q ++ ['\n']).length := by
      rw [List.take_append_eq_append_take, Nat.sub_eq_zero_of_le hlen, List.take_zero,
        List.append_nil]
    have h3 : q ++ ['\n'] = b.take (q ++ ['\n']).length :=
      hself.symm.trans (hcong.trans h2)
    have h4 := List.take_append_drop (q ++ ['\n']).length b
    rw [← h3] at h4
    exact ⟨b.drop (q ++ ['\n']).length, h4⟩
  · exfalso
    have hm1 : 1 ≤ (q ++ ['\n']).length - b.length := by omega
    have hmq : (q ++ ['\n']).length - b.length ≤ q.length := by
      have hb1 : 1 ≤ b.length := by
        cases b with
        | nil => exact absurd rfl hb
        | cons x xs => simp
      rw [hq1]
      omega
    have h2 : (b ++ (q ++ ['\n'])).take (q ++ ['\n']).length =
        b ++ (q ++ ['\n']).take ((q ++ ['\n']).length - b.length) := by
      rw [List.take_append_eq_append_take, List.take_of_length_le (le_of_lt hlen)]
    have htk : (q ++ ['\n']).take ((q ++ ['\n']).length - b.length) =
        q.take ((q ++ ['\n']).length - b.length) := by
      rw [List.take_append_eq_append_take, Nat.sub_eq_zero_of_le hmq, List.take_zero,
        List.append_nil]
    have heq : q ++ ['\n'] = b ++ q.take ((q ++ ['\n']).length - b.length) :=
      hself.symm.trans (hcong.trans (h2.trans (by rw [htk])))
    have hne : (q.take ((q ++ ['\n']).length - b.length)).reverse ≠ [] := by
      intro hnil
      have h0 := congrArg List.length hnil
      simp only [List.length_reverse, List.length_take, List.length_nil] at h0
      omega
    obtain ⟨c, cs, hcs⟩ := List.exists_cons_of_ne_nil hne
    have hrev := congrArg List.reverse heq
    rw [List.reverse_append, List.reverse_append, hcs] at hrev
    simp only [List.reverse_cons, List.reverse_nil, List.nil_append,
      List.singleton_append, List.cons_append] at hrev
    have hcnl : c = '\n' := by
      injection hrev with h1 _
      exact h1.symm
    have hmem : '\n' ∈ (q.take ((q ++ ['\n']).length - b.length)).reverse := by
      rw [hcs, hcnl]
      exact List.mem_cons_self _ _
    rw [List.mem_reverse] at hmem
    exact hq (List.take_subset _ q hmem)

theorem countOcc_app_self {q : List Char} (hq : '\n' ∉ q) :
    ∀ a : List Char,
      countOcc (q ++ ['\n']) (a ++ (q ++ ['\n'])) = countOcc (q ++ ['\n']) a + 1 := by
  intro a
  induction a with
  | nil =>
    obtain ⟨c, cs, hcs⟩ := List.exists_cons_of_ne_nil
      (show q ++ ['\n'] ≠ [] by simp)
    simp only [List.nil_append, countOcc]
    rw [hcs]
    simp only [countOcc]
    rw [if_pos (List.isPrefixOf_iff_prefix.mpr (List.prefix_refl _)),
      countOcc_zero_of_short (by simp)]
  | cons x a' ih =>
    have hbool : ∀ b₁ b₂ : Bool, (b₁ = true ↔ b₂ = true) → b₁ = b₂ := by decide
    have hpiff : (q ++ ['\n']).isPrefixOf ((x :: a') ++ (q ++ ['\n'])) =
        (q ++ ['\n']).isPrefixOf (x :: a') := by
      apply hbool
      rw [List.isPrefixOf_iff_prefix, List.isPrefixOf_iff_prefix]
      exact ⟨fun h => pref_app_self hq (by simp) h, fun h => pref_ext_app h⟩
    calc countOcc (q ++ ['\n']) ((x :: a') ++ (q ++ ['\n']))
      = (if (q ++ ['\n']).isPrefixOf ((x :: a') ++ (q ++ ['\n'])) then 1 else 0)
          + countOcc (q ++ ['\n']) (a' ++ (q ++ ['\n'])) := rfl
    _ = (if (q ++ ['\n']).isPrefixOf (x :: a') then 1 else 0)
          + (countOcc (q ++ ['\n']) a' + 1) := by rw [hpiff, ih]
    _ = countOcc (q ++ ['\n']) (x :: a') + 1 := by simp only [countOcc]; omega

/-! ### Decomposing `rustLines` over appends -/

theorem splitNl_ne_nil : ∀ xs : List Char, splitNlChars xs ≠ [] := by
  intro xs
  induction xs with
  | nil => simp [splitNlChars]
  | cons c cs ih =>
    by_cases h : c = '\n'
    · simp [splitNlChars, h]
    · simp only [splitNlChars, if_neg h]
      rcases hsp : splitNlChars cs with _ | ⟨l, ls⟩
      · simp
      · simp

/-- Chunk lists of two halves of an append are glued by merging the last
chunk of the left half into the first chunk of the right half. -/
def glue : List (List Char) → List (List Char) → List (List Char)
  | [], bs => bs
  | [a], bs =>
    match bs with
    | [] => [a]
    | b :: bs' => (a ++ b) :: bs'
  | a :: a' :: as, bs => a :: glue (a' :: as) bs

theorem glue_cons_cons (a a' : List Char) (as bs : List (List Char)) :
    glue (a :: a' :: as) bs = a :: glue (a' :: as) bs := rfl

theorem glue_single (a b : List Char) (bs' : List (List Char)) :
    glue [a] (b :: bs') = (a ++ b) :: bs' := rfl

theorem splitNl_app : ∀ xs ys : List Char,
    splitNlChars (xs ++ ys) = glue (splitNlChars xs) (splitNlChars ys) := by
  intro xs ys
  induction xs with
  | nil =>
    obtain ⟨b, bs', hb⟩ := List.exists_cons_of_ne_nil (splitNl_ne_nil ys)
    show splitNlChars ys = glue (splitNlChars []) (splitNlChars ys)
    rw [hb]
    rfl
  | cons c cs ih =>
    by_cases h : c = '\n'
    · subst h
      obtain ⟨a', as, hcs⟩ := List.exists_cons_of_ne_nil (splitNl_ne_nil cs)
      show splitNlChars ('\n' :: (cs ++ ys)) = glue (splitNlChars ('\n' :: cs)) _
      simp [splitNlChars, ih, hcs, glue_cons_cons]
    · obtain ⟨l, ls, hls⟩ := List.exists_cons_of_ne_nil (splitNl_ne_nil (cs ++ ys))
      obtain ⟨h', t', hcs⟩ := List.exists_cons_of_ne_nil (splitNl_ne_nil cs)
      have hglue : glue (splitNlChars cs) (splitNlChars ys) = l :: ls := by
        rw [← ih, hls]
      show splitNlChars (c :: (cs ++ ys)) = glue (splitNlChars (c :: cs)) _
      simp only [splitNlChars, if_neg h, hls, hcs]
      cases t' with
      | nil =>
        obtain ⟨b, bs', hb⟩ := List.exists_cons_of_ne_nil (splitNl_ne_nil ys)
        rw [hcs, hb, glue_single] at hglue
        injection hglue with h1 h2
        rw [hb, glue_single, ← h1, ← h2]
        simp
      | cons a as =>
        rw [hcs, glue_cons_cons] at hglue
        injection hglue with h1 h2
        rw [glue_cons_cons, ← h1, ← h2]

theorem rustLinesAux_cons_cons (c d : List Char) (ds : List (List Char)) :
    rustLinesAux (c :: d :: ds) = String.mk (stripCR c) :: rustLinesAux (d :: ds) := rfl

theorem rustLinesAux_app : ∀ (as bs : List (List Char)), bs ≠ [] →
    rustLinesAux (as ++ bs) =
      as.map (fun c => String.mk (stripCR c)) ++ rustLinesAux bs := by
  intro as
  induction as with
  | nil => intro bs _; simp
  | cons c as' ih =>
    intro bs hbs
    have hne : as' ++ bs ≠ [] := by
      intro hnil
      exact hbs (List.append_eq_nil.mp hnil).2
    obtain ⟨d, ds, hd⟩ := List.exists_cons_of_ne_nil hne
    calc rustLinesAux ((c :: as') ++ bs)
        = String.mk (stripCR c) :: rustLinesAux (as' ++ bs) := by
          rw [List.cons_append, hd, rustLinesAux_cons_cons]
      _ = String.mk (stripCR c) :: (as'.map (fun c => String.mk (stripCR c)) ++ rustLinesAux bs) := by
          rw [ih bs hbs]
      _ = (c :: as').map (fun c => String.mk (stripCR c)) ++ rustLinesAux bs := by
          simp

theorem glue_shape : ∀ (cs : List (List Char)), cs ≠ [] → ∀ (b : List Char)
    (bs : List (List Char)), ∃ ds x, glue cs (b :: bs) = ds ++ (x ++ b) :: bs := by
  intro cs
  induction cs with
  | nil => intro h; exact absurd rfl h
  | cons a cs' ih =>
    intro _ b bs
    cases cs' with
    | nil => exact ⟨[], a, rfl⟩
    | cons a' as =>
      obtain ⟨ds, x, hx⟩ := ih (List.cons_ne_nil a' as) b bs
      exact ⟨a :: ds, x, by rw [glue_cons_cons, hx]; rfl⟩

/-! ### Projection and shape lemmas for the two operations -/

@[simp] theorem envSetVar_procEnv (s : SysState) (var value n : String) :
    (envSetVar s var value).procEnv n = if n = var then some value else s.procEnv n := rfl

@[simp] theorem envSetVar_fileSys (s : SysState) (var value : String) :
    (envSetVar s var value).fileSys = s.fileSys := rfl

@[simp] theorem envSetVar_readFault (s : SysState) (var value : String) :
    (envSetVar s var value).readFault = s.readFault := rfl

@[simp] theorem envSetVar_writeFault (s : SysState) (var value : String) :
    (envSetVar s var value).writeFault = s.writeFault := rfl

@[simp] theorem envRemoveVar_procEnv (s : SysState) (var n : String) :
    (envRemoveVar s var).procEnv n = if n = var then none else s.procEnv n := rfl

@[simp] theorem envRemoveVar_fileSys (s : SysState) (var : String) :
    (envRemoveVar s var).fileSys = s.fileSys := rfl

/-- Success shape of `set_var` when the exact export line is already in the
file: no file mutation, only the process-local mirror. -/
theorem set_var_skip (var value : String) (s : SysState) (p c : String)
    (hres : resolveProfile s = .ok p) (hio : s.readFault p = false)
    (hf : s.fileSys p = some c)
    (hyes : strContains c (exportLine var value) = true) :
    set_var var value s = (.ok (), envSetVar s var value) := by
  simp [set_var, fsRead, hres, hio, hf, hyes]

/-- Success shape of `set_var` when the line is not yet present: the line is
appended at the end of the file, then the process-local mirror is set. -/
theorem set_var_append (var value : String) (s : SysState) (p c : String)
    (hres : resolveProfile s = .ok p) (hio : s.readFault p = false)
    (hf : s.fileSys p = some c) (hw : s.writeFault p = false)
    (hni : strContains c (exportLine var value) = false) :
    set_var var value s = (.ok (), envSetVar
      { s with fileSys := fun q =>
          if q = p then some (c ++ exportLine var value) else s.fileSys q }
      var value) := by
  simp [set_var, fsRead, fsAppendOp, hres, hio, hf, hw, hni]

/-- Success shape of `unset_var` when the file does not contain
`export var=`: no file mutation, only the process-local removal. -/
theorem unset_var_skip (var : String) (s : SysState) (p c : String)
    (hres : resolveProfile s = .ok p) (hio : s.readFault p = false)
    (hf : s.fileSys p = some c)
    (hno : strContains c (exportKey var) = false) :
    unset_var var s = (.ok (), envRemoveVar s var) := by
  simp [unset_var, fsRead, hres, hio, hf, hno]

/-- Success shape of `unset_var` when the file contains `export var=`: the
file is rebuilt from the lines that do not contain `var`, then the
process-local variable is removed. -/
theorem unset_var_rw (var : String) (s : SysState) (p c : String)
    (hres : resolveProfile s = .ok p) (hio : s.readFault p = false)
    (hf : s.fileSys p = some c) (hw : s.writeFault p = false)
    (hyes : strContains c (exportKey var) = true) :
    unset_var var s = (.ok (), envRemoveVar
      { s with fileSys := fun q =>
          if q = p then
            some (rejoinLines ((rustLines c).filter (fun l => !strContains l var)))
          else s.fileSys q }
      var) := by
  simp [unset_var, fsRead, fsWriteOp, hres, hio, hf, hw, hyes]

/-- Error shape: a resolution failure is returned with the state untouched. -/
theorem set_var_resolve_err (var value : String) (s : SysState) (e : EnvError)
    (hres : resolveProfile s = .error e) : set_var var value s = (.error e, s) := by
  simp [set_var, hres]

/-- Error shape: a resolution failure is returned with the state untouched. -/
theorem unset_var_resolve_err (var : String) (s : SysState) (e : EnvError)
    (hres : resolveProfile s = .error e) : unset_var var s = (.error e, s) := by
  simp [unset_var, hres]

/-- Error shape: a read failure is returned with the state untouched. -/
theorem set_var_read_err (var value : String) (s : SysState) (p : String)
    (hres : resolveProfile s = .ok p) (hre : fsRead s p = .error .IOError) :
    set_var var value s = (.error .IOError, s) := by
  simp [set_var, hres, hre]

/-- Error shape: a read failure is returned with the state untouched. -/
theorem unset_var_read_err (var : String) (s : SysState) (p : String)
    (hres : resolveProfile s = .ok p) (hre : fsRead s p = .error .IOError) :
    unset_var var s = (.error .IOError, s) := by
  simp [unset_var, hres, hre]

/-! ### Inversion lemmas -/

theorem singleton_inf_iff {a : Char} {l : List Char} : [a] <:+: l ↔ a ∈ l := by
  constructor
  · rintro ⟨s, t, h⟩
    rw [← h]
    simp
  · intro h
    obtain ⟨s, t, rfl⟩ := List.append_of_mem h
    exact ⟨s, t, by simp⟩

theorem resolveProfile_congr {s t : SysState} (hh : t.procEnv "HOME" = s.procEnv "HOME")
    (hs : t.procEnv "SHELL" = s.procEnv "SHELL") :
    resolveProfile t = resolveProfile s := by
  unfold resolveProfile
  rw [hh, hs]

theorem fsRead_ok_inv {s : SysState} {p env : String} (h : fsRead s p = .ok env) :
    s.readFault p = false ∧ s.fileSys p = some env := by
  unfold fsRead at h
  cases hrf : s.readFault p with
  | true => rw [hrf] at h; simp at h
  | false =>
    rw [hrf] at h
    simp only [Bool.false_eq_true, if_false] at h
    cases hfs : s.fileSys p with
    | none => rw [hfs] at h; simp at h
    | some c =>
      rw [hfs] at h
      simp only [Except.ok.injEq] at h
      exact ⟨rfl, by rw [h]⟩

/-- Full inversion of a successful `set_var` run. -/
theorem set_var_ok_inv {var value : String} {s s₁ : SysState}
    (h : set_var var value s = (.ok (), s₁)) :
    ∃ p env, resolveProfile s = .ok p ∧ s.readFault p = false ∧ s.fileSys p = some env ∧
      ((strContains env (exportLine var value) = true ∧ s₁ = envSetVar s var value) ∨
       (strContains env (exportLine var value) = false ∧ s.writeFault p = false ∧
        s₁ = envSetVar
          { s with
            fileSys := fun q =>
              if q = p then some (env ++ exportLine var value) else s.fileSys q }
          var value)) := by
  unfold set_var at h
  cases hres : resolveProfile s with
  | error e => rw [hres] at h; simp at h
  | ok p =>
    rw [hres] at h
    dsimp only at h
    cases hread : fsRead s p with
    | error e => rw [hread] at h; simp at h
    | ok env =>
      rw [hread] at h
      dsimp only at h
      obtain ⟨hrf, hfs⟩ := fsRead_ok_inv hread
      refine ⟨p, env, rfl, hrf, hfs, ?_⟩
      cases hc : strContains env (exportLine var value) with
      | true =>
        rw [if_pos hc] at h
        simp only [Prod.mk.injEq, true_and] at h
        exact Or.inl ⟨rfl, h.symm⟩
      | false =>
        rw [if_neg (by simp [hc])] at h
        cases hwf : s.writeFault p with
        | true =>
          have happ : fsAppendOp s p (exportLine var value) = .error .IOError := by
            simp [fsAppendOp, hwf]
          rw [happ] at h
          simp at h
        | false =>
          have happ : fsAppendOp s p (exportLine var value) =
              .ok { s with fileSys := fun q =>
                if q = p then some (env ++ exportLine var value) else s.fileSys q } := by
            simp [fsAppendOp, hwf, hfs]
          rw [happ] at h
          simp only [Prod.mk.injEq, true_and] at h
          exact Or.inr ⟨rfl, rfl, h.symm⟩

/-- Full inversion of a successful `unset_var` run. -/
theorem unset_var_ok_inv {var : String} {s s₂ : SysState}
    (h : unset_var var s = (.ok (), s₂)) :
    ∃ p env, resolveProfile s = .ok p ∧ s.readFault p = false ∧ s.fileSys p = some env ∧
      ((strContains env (exportKey var) = false ∧ s₂ = envRemoveVar s var) ∨
       (strContains env (exportKey var) = true ∧ s.writeFault p = false ∧
        s₂ = envRemoveVar
          { s with
            fileSys := fun q =>
              if q = p then
                some (rejoinLines ((rustLines env).filter (fun l => !strContains l var)))
              else s.fileSys q }
          var)) := by
  unfold unset_var at h
  cases hres : resolveProfile s with
  | error e => rw [hres] at h; simp at h
  | ok p =>
    rw [hres] at h
    dsimp only at h
    cases hread : fsRead s p with
    | error e => rw [hread] at h; simp at h
    | ok env =>
      rw [hread] at h
      dsimp only at h
      obtain ⟨hrf, hfs⟩ := fsRead_ok_inv hread
      refine ⟨p, env, rfl, hrf, hfs, ?_⟩
      cases hc : strContains env (exportKey var) with
      | true =>
        rw [if_neg (by simp [hc])] at h
        cases hwf : s.writeFault p with
        | true =>
          have hwr : fsWriteOp s p
              (rejoinLines ((rustLines env).filter (fun l => !strContains l var)))
              = .error .IOError := by
            simp [fsWriteOp, hwf]
          rw [hwr] at h
          simp at h
        | false =>
          have hwr : fsWriteOp s p
              (rejoinLines ((rustLines env).filter (fun l => !strContains l var)))
              = .ok
                { s with
                  fileSys := fun q =>
                    if q = p then
                      some (rejoinLines ((rustLines env).filter (fun l => !strContains l var)))
                    else s.fileSys q } := by
            simp [fsWriteOp, hwf]
          rw [hwr] at h
          simp only [Prod.mk.injEq, true_and] at h
          exact Or.inr ⟨rfl, rfl, h.symm⟩
      | false =>
        rw [if_pos (by simp [hc])] at h
        simp only [Prod.mk.injEq, true_and] at h
        exact Or.inl ⟨rfl, h.symm⟩

/-! ### Concrete states for witnesses and counterexamples -/

/-- A concrete world: `$HOME=/home/u`, a chosen `$SHELL`, at most one file at
the zsh profile location, no injected I/O faults. -/
def testState (shell : String) (file : Option String) : SysState :=
  { procEnv := fun n =>
      if n = "HOME" then some "/home/u" else if n = "SHELL" then some shell else none
    fileSys := fun p => if p = "/home/u/.zshenv" then file else none
    readFault := fun _ => false
    writeFault := fun _ => false }

/-- A world with `$SHELL` set but `$HOME` missing. -/
def stNoHome : SysState :=
  { procEnv := fun n => if n = "SHELL" then some "/bin/zsh" else none
    fileSys := fun _ => none
    readFault := fun _ => false
    writeFault := fun _ => false }

/-- A world with `$HOME` set but `$SHELL` missing. -/
def stNoShell : SysState :=
  { procEnv := fun n => if n = "HOME" then some "/home/u" else none
    fileSys := fun _ => none
    readFault := fun _ => false
    writeFault := fun _ => false }

/-! ### The claims -/

/-- C2: with `$HOME` present and `$SHELL` set to any value other than
`/bin/zsh` and `/bin/bash`, both `set_var` and `unset_var` return
`Err(EnvError::UnsupportedShell)` and return the input state completely
unmodified (process environment and profile file untouched). -/
theorem c2_unsupported_shell (var value : String) (s : SysState) (home shell : String)
    (hh : s.procEnv "HOME" = some home) (hs : s.procEnv "SHELL" = some shell)
    (h1 : shell ≠ "/bin/zsh") (h2 : shell ≠ "/bin/bash") :
    set_var var value s = (.error .UnsupportedShell, s) ∧
    unset_var var s = (.error .UnsupportedShell, s) := by
  have hres : resolveProfile s = .error .UnsupportedShell := by
    simp [resolveProfile, hh, hs, shellEnvFile, h1, h2]
  exact ⟨set_var_resolve_err _ _ _ _ hres, unset_var_resolve_err _ _ _ hres⟩

/-- Witness for C2 at `$SHELL=/bin/fish`. -/
theorem c2_witness :
    set_var "A" "1" (testState "/bin/fish" none) =
      (.error .UnsupportedShell, testState "/bin/fish" none) ∧
    unset_var "A" (testState "/bin/fish" none) =
      (.error .UnsupportedShell, testState "/bin/fish" none) :=
  c2_unsupported_shell "A" "1" _ "/home/u" "/bin/fish" rfl rfl (by decide) (by decide)

/-- C7: the backing file resolves as `$SHELL=/bin/zsh` ↦ `$HOME/.zshenv` and
`$SHELL=/bin/bash` ↦ `$HOME/.bashrc`; and if `$HOME` or `$SHELL` is unset,
both operations return `Err(EnvError::VarError)` with the state exactly
unchanged — the failure happens before any file is touched. -/
theorem c7_resolution (var value : String) (s : SysState) (home : String) :
    (s.procEnv "HOME" = some home → s.procEnv "SHELL" = some "/bin/zsh" →
      resolveProfile s = .ok (pathJoin home ".zshenv")) ∧
    (s.procEnv "HOME" = some home → s.procEnv "SHELL" = some "/bin/bash" →
      resolveProfile s = .ok (pathJoin home ".bashrc")) ∧
    (s.procEnv "HOME" = none →
      set_var var value s = (.error .VarError, s) ∧
      unset_var var s = (.error .VarError, s)) ∧
    (s.procEnv "HOME" = some home → s.procEnv "SHELL" = none →
      set_var var value s = (.error .VarError, s) ∧
      unset_var var s = (.error .VarError, s)) := by
  refine ⟨?_, ?_, ?_, ?_⟩
  · intro hh hs
    simp [resolveProfile, hh, hs, shellEnvFile]
  · intro hh hs
    simp [resolveProfile, hh, hs, shellEnvFile]
  · intro hh
    have hres : resolveProfile s = .error .VarError := by simp [resolveProfile, hh]
    exact ⟨set_var_resolve_err _ _ _ _ hres, unset_var_resolve_err _ _ _ hres⟩
  · intro hh hs
    have hres : resolveProfile s = .error .VarError := by simp [resolveProfile, hh, hs]
    exact ⟨set_var_resolve_err _ _ _ _ hres, unset_var_resolve_err _ _ _ hres⟩

/-- Witness for C7: both shell mappings and both missing-variable failures at
concrete states. -/
theorem c7_witness :
    resolveProfile (testState "/bin/zsh" none) = .ok (pathJoin "/home/u" ".zshenv") ∧
    resolveProfile (testState "/bin/bash" none) = .ok (pathJoin "/home/u" ".bashrc") ∧
    set_var "A" "1" stNoHome = (.error .VarError, stNoHome) ∧
    unset_var "A" stNoShell = (.error .VarError, stNoShell) :=
  ⟨(c7_resolution "A" "1" (testState "/bin/zsh" none) "/home/u").1 rfl rfl,
   (c7_resolution "A" "1" (testState "/bin/bash" none) "/home/u").2.1 rfl rfl,
   ((c7_resolution "A" "1" stNoHome "/home/u").2.2.1 rfl).1,
   ((c7_resolution "A" "1" stNoShell "/home/u").2.2.2 rfl rfl).2⟩

/-- C6: whenever `set_var` or `unset_var` returns an error — resolution
failure, profile read failure or profile write failure — the process
environment of the returned state is exactly the input one: the
`env::set_var`/`env::remove_var` mirror step is sequenced after every
fallible persisted-store step and is never reached on an error path. -/
theorem c6_error_no_env_mutation (var value : String) (s : SysState) (e : EnvError) :
    ((set_var var value s).1 = .error e → (set_var var value s).2.procEnv = s.procEnv) ∧
    ((unset_var var s).1 = .error e → (unset_var var s).2.procEnv = s.procEnv) := by
  constructor
  · intro h
    unfold set_var at h ⊢
    cases hres : resolveProfile s with
    | error e' => rfl
    | ok p =>
      rw [hres] at h
      dsimp only at h ⊢
      cases hread : fsRead s p with
      | error e' => rfl
      | ok env =>
        rw [hread] at h
        dsimp only at h ⊢
        cases hc : strContains env (exportLine var value) with
        | true =>
          rw [hc] at h
          simp at h
        | false =>
          rw [hc] at h
          rw [if_neg (by simp)] at h
          cases happ : fsAppendOp s p (exportLine var value) with
          | error e' => rfl
          | ok s1 =>
            rw [happ] at h
            simp at h
  · intro h
    unfold unset_var at h ⊢
    cases hres : resolveProfile s with
    | error e' => rfl
    | ok p =>
      rw [hres] at h
      dsimp only at h ⊢
      cases hread : fsRead s p with
      | error e' => rfl
      | ok env =>
        rw [hread] at h
        dsimp only at h ⊢
        cases hc : strContains env (exportKey var) with
        | true =>
          rw [hc] at h
          rw [if_neg (by simp)] at h
          cases hwr : fsWriteOp s p
              (rejoinLines ((rustLines env).filter (fun l => !strContains l var))) with
          | error e' => rfl
          | ok s1 =>
            rw [hwr] at h
            simp at h
        | false =>
          rw [hc] at h
          simp at h

/-- Witness for C6 at a state whose `$HOME` is missing. -/
theorem c6_witness :
    (set_var "A" "1" stNoHome).2.procEnv = stNoHome.procEnv ∧
    (unset_var "A" stNoHome).2.procEnv = stNoHome.procEnv :=
  ⟨(c6_error_no_env_mutation "A" "1" stNoHome .VarError).1 (by decide),
   (c6_error_no_env_mutation "A" "1" stNoHome .VarError).2 (by decide)⟩

/-- C3 (amended): when the resolved profile file does not exist `set_var`
FAILS with `EnvError::IOError`: the `fs::read_to_string` at lib.rs line 80
errors before the open-or-create append of lines 93-96 is reached, so no file
is created and the state is returned unchanged. -/
theorem c3_missing_file (var value : String) (s : SysState) (p : String)
    (hres : resolveProfile s = .ok p) (hmiss : s.fileSys p = none) :
    set_var var value s = (.error .IOError, s) := by
  have hre : fsRead s p = .error .IOError := by
    cases hrf : s.readFault p <;> simp [fsRead, hrf, hmiss]
  exact set_var_read_err var value s p hres hre

/-- Witness for C3 (amended) at a concrete state with no profile file. -/
theorem c3_witness :
    set_var "A" "1" (testState "/bin/zsh" none) =
      (.error .IOError, testState "/bin/zsh" none) :=
  c3_missing_file "A" "1" (testState "/bin/zsh" none) "/home/u/.zshenv"
    (by decide) (by decide)

/-- C3 counterexample: with `$SHELL=/bin/zsh`, `$HOME=/home/u` and no profile
file, `set_var` returns `Err(IOError)` and creates no file — the claim's
"`set_var` succeeds: it creates the file and writes the export line" is
false on the code. -/
theorem c3_counterexample :
    (set_var "A" "1" (testState "/bin/zsh" none)).1 = .error .IOError ∧
    (set_var "A" "1" (testState "/bin/zsh" none)).2.fileSys "/home/u/.zshenv" = none := by
  decide

/-- C9 (amended): for every file content that does not CONTAIN the substring
`export name=`, `unset_var` returns `Ok`, leaves the whole file system
byte-for-byte unchanged (no rewrite), and removes the name from the process
environment. (The claim's "no line has the prefix `export name=`" condition
is not the one the code tests; see the counterexample.) -/
theorem c9_skip_no_rewrite (var : String) (s : SysState) (p c : String)
    (hres : resolveProfile s = .ok p) (hio : s.readFault p = false)
    (hf : s.fileSys p = some c)
    (hno : strContains c (exportKey var) = false) :
    ∃ s', unset_var var s = (.ok (), s') ∧ s'.fileSys = s.fileSys ∧
      s'.procEnv var = none :=
  ⟨_, unset_var_skip var s p c hres hio hf hno, rfl, by simp⟩

/-- Witness for C9 (amended). -/
theorem c9_witness :
    ∃ s', unset_var "A" (testState "/bin/zsh" (some "export B=2\n")) = (.ok (), s') ∧
      s'.fileSys = (testState "/bin/zsh" (some "export B=2\n")).fileSys ∧
      s'.procEnv "A" = none :=
  c9_skip_no_rewrite "A" (testState "/bin/zsh" (some "export B=2\n"))
    "/home/u/.zshenv" "export B=2\n" (by decide) rfl rfl (by decide)

/-- C9 counterexample: in the file `x export A=1\n` no line has the PREFIX
`export A=`, yet `unset_var "A"` returns `Ok` and rewrites the file to the
empty string — the skip test at lib.rs line 138 is a substring test on the
whole file, not a line-prefix test, so the claim as stated is false. -/
theorem c9_counterexample :
    ((rustLines "x export A=1\n").all
      (fun l => !("export A=".toList.isPrefixOf l.toList))) = true ∧
    (unset_var "A" (testState "/bin/zsh" (some "x export A=1\n"))).1 = .ok () ∧
    (unset_var "A" (testState "/bin/zsh" (some "x export A=1\n"))).2.fileSys
      "/home/u/.zshenv" = some "" := by
  decide

/-- C10: when `set_var` appends (the exact line is not yet present), the new
file is exactly the old content with `export name=value\n` appended — every
existing byte is unchanged, other files are untouched, and in particular any
existing `export name=old` line for a different old value stays in place
(old substrings keep occurring). -/
theorem c10_append_preserves (var value : String) (s : SysState) (p c : String)
    (hres : resolveProfile s = .ok p) (hio : s.readFault p = false)
    (hf : s.fileSys p = some c) (hw : s.writeFault p = false)
    (hni : strContains c (exportLine var value) = false) :
    ∃ s', set_var var value s = (.ok (), s') ∧
      s'.fileSys p = some (c ++ exportLine var value) ∧
      (∀ q, q ≠ p → s'.fileSys q = s.fileSys q) ∧
      (∀ old : String, strContains c old = true →
        strContains (c ++ exportLine var value) old = true) ∧
      s'.procEnv var = some value := by
  refine ⟨_, set_var_append var value s p c hres hio hf hw hni, by simp, ?_, ?_, by simp⟩
  · intro q hq
    simp [hq]
  · intro old hold
    rw [strContains_iff] at hold ⊢
    rw [str_toList_app]
    exact inf_ext_right hold

/-- Witness for C10: setting a new value for `A` keeps the old
`export A=0` line in place and appends the new line. -/
theorem c10_witness :
    ∃ s', set_var "A" "1" (testState "/bin/zsh" (some "export A=0\n")) = (.ok (), s') ∧
      s'.fileSys "/home/u/.zshenv" = some ("export A=0\n" ++ exportLine "A" "1") ∧
      (∀ q, q ≠ "/home/u/.zshenv" →
        s'.fileSys q = (testState "/bin/zsh" (some "export A=0\n")).fileSys q) ∧
      (∀ old : String, strContains "export A=0\n" old = true →
        strContains ("export A=0\n" ++ exportLine "A" "1") old = true) ∧
      s'.procEnv "A" = some "1" :=
  c10_append_preserves "A" "1" (testState "/bin/zsh" (some "export A=0\n"))
    "/home/u/.zshenv" "export A=0\n" (by decide) rfl (by decide) rfl (by decide)

/-- C1 counterexample: for the name `A\nB` (an embedded newline), `unset_var`
succeeds and clears the process-local variable, yet the profile file still
contains `export A\nB=`: the line-wise removal loop can never delete a
pattern that spans two lines, refuting the claim's universal quantification
over names. -/
theorem c1_counterexample :
    (unset_var "A\nB" (testState "/bin/zsh" (some "export A\nB=c\n"))).1 = .ok () ∧
    (unset_var "A\nB" (testState "/bin/zsh" (some "export A\nB=c\n"))).2.procEnv "A\nB"
      = none ∧
    strContains (((unset_var "A\nB" (testState "/bin/zsh" (some "export A\nB=c\n"))).2.fileSys
      "/home/u/.zshenv").getD "") (exportKey "A\nB") = true := by
  decide

/-- C1 (amended): for every name without an embedded newline and every value:
after a successful `set_var` the process environment maps the name to the
value and the resolved profile file contains the `export name=value` line;
after a successful `unset_var` the process environment no longer contains the
name and the profile file no longer contains the fragment `export name=`. -/
theorem c1_invariant (var value : String) (s s₁ s₂ : SysState)
    (hnl : '\n' ∉ var.toList)
    (hset : set_var var value s = (.ok (), s₁))
    (hunset : unset_var var s = (.ok (), s₂)) :
    (s₁.procEnv var = some value ∧ ∃ p c₁, resolveProfile s = .ok p ∧
      s₁.fileSys p = some c₁ ∧ strContains c₁ (exportLine var value) = true) ∧
    (s₂.procEnv var = none ∧ ∃ p c₂, resolveProfile s = .ok p ∧
      s₂.fileSys p = some c₂ ∧ strContains c₂ (exportKey var) = false) := by
  constructor
  · obtain ⟨p, env, hres, hrf, hfs, hbr⟩ := set_var_ok_inv hset
    rcases hbr with ⟨hc, rfl⟩ | ⟨hc, hwf, rfl⟩
    · exact ⟨by simp, p, env, hres, by simpa using hfs, hc⟩
    · refine ⟨by simp, p, env ++ exportLine var value, hres, by simp, ?_⟩
      rw [strContains_iff, str_toList_app]
      exact inf_ext_left (List.infix_refl _)
  · obtain ⟨p, env, hres, hrf, hfs, hbr⟩ := unset_var_ok_inv hunset
    rcases hbr with ⟨hc, rfl⟩ | ⟨hc, hwf, rfl⟩
    · exact ⟨by simp, p, env, hres, by simpa using hfs, hc⟩
    · refine ⟨by simp, p,
        rejoinLines ((rustLines env).filter (fun l => !strContains l var)),
        hres, by simp, ?_⟩
      apply rejoin_not_contains (nl_not_mem_exportKey hnl) (exportKey_ne_nil var)
      intro l hl
      have hlf := (List.mem_filter.mp hl).2
      have hno : strContains l var = false := by
        cases hsc : strContains l var
        · rfl
        · rw [hsc] at hlf
          simp at hlf
      exact contains_mono (var_inf_exportKey var) hno

/-- Witness for C1 (amended) on an empty profile file: `set_var "A" "1"`
appends the line, `unset_var "A"` takes the skip branch. -/
theorem c1_witness :
    ((set_var "A" "1" (testState "/bin/zsh" (some ""))).2.procEnv "A" = some "1" ∧
      ∃ p c₁, resolveProfile (testState "/bin/zsh" (some "")) = .ok p ∧
        (set_var "A" "1" (testState "/bin/zsh" (some ""))).2.fileSys p = some c₁ ∧
        strContains c₁ (exportLine "A" "1") = true) ∧
    ((unset_var "A" (testState "/bin/zsh" (some ""))).2.procEnv "A" = none ∧
      ∃ p c₂, resolveProfile (testState "/bin/zsh" (some "")) = .ok p ∧
        (unset_var "A" (testState "/bin/zsh" (some ""))).2.fileSys p = some c₂ ∧
        strContains c₂ (exportKey "A") = false) :=
  c1_invariant "A" "1" (testState "/bin/zsh" (some "")) _ _ (by decide) rfl rfl

/-- The concrete file of C5's demonstration: a comment line that mentions the
variable name `PATH` without being an assignment of it. -/
def stC5 : SysState :=
  testState "/bin/zsh" (some "# PATH backup\nexport PATH=/bin\nexport OTHER=2\n")

/-- C5: when the profile file contains `export var=`, `unset_var` rewrites it
to exactly the old lines that do NOT contain `var` as a substring, each
re-terminated with a newline; consequently an unrelated line mentioning the
name is also removed — concretely, unsetting `PATH` also deletes the
`# PATH backup` comment line. -/
theorem c5_rewrite_filter (var : String) (s : SysState) (p c : String)
    (hres : resolveProfile s = .ok p) (hio : s.readFault p = false)
    (hf : s.fileSys p = some c) (hw : s.writeFault p = false)
    (hyes : strContains c (exportKey var) = true) :
    (∃ s', unset_var var s = (.ok (), s') ∧
      s'.fileSys p =
        some (rejoinLines ((rustLines c).filter (fun l => !strContains l var)))) ∧
    (unset_var "PATH" stC5).1 = .ok () ∧
    (unset_var "PATH" stC5).2.fileSys "/home/u/.zshenv" = some "export OTHER=2\n" := by
  refine ⟨⟨_, unset_var_rw var s p c hres hio hf hw hyes, by simp⟩, ?_, ?_⟩
  · decide
  · decide

/-- Witness for C5, instantiated at the demonstration state itself. -/
theorem c5_witness :
    (∃ s', unset_var "PATH" stC5 = (.ok (), s') ∧
      s'.fileSys "/home/u/.zshenv" =
        some (rejoinLines
          ((rustLines "# PATH backup\nexport PATH=/bin\nexport OTHER=2\n").filter
            (fun l => !strContains l "PATH")))) ∧
    (unset_var "PATH" stC5).1 = .ok () ∧
    (unset_var "PATH" stC5).2.fileSys "/home/u/.zshenv" = some "export OTHER=2\n" :=
  c5_rewrite_filter "PATH" stC5 "/home/u/.zshenv"
    "# PATH backup\nexport PATH=/bin\nexport OTHER=2\n"
    (by decide) rfl rfl rfl (by decide)

theorem nl_not_mem_lineBody {var value : String} (h1 : '\n' ∉ var.toList)
    (h2 : '\n' ∉ value.toList) :
    '\n' ∉ ("export ".toList ++ var.toList ++ ['='] ++ value.toList) := by
  intro h
  rcases List.mem_append.mp h with h3 | h4
  · rcases List.mem_append.mp h3 with h5 | h6
    · rcases List.mem_append.mp h5 with h7 | h8
      · revert h7
        decide
      · exact h1 h8
    · revert h6
      decide
  · exact h2 h4

/-- C4 counterexample: starting from a profile that already holds the line
`export A=1` twice, both calls take the skip branch and the final file still
holds TWO copies of `export A=1\n` — "leaves exactly one `export name=value`
line persisted (no duplicate line)" is false as stated, since the claim puts
no precondition on the starting file. -/
theorem c4_counterexample :
    (set_var "A" "1" (testState "/bin/zsh" (some "export A=1\nexport A=1\n"))).1
      = .ok () ∧
    (set_var "A" "1"
      (set_var "A" "1" (testState "/bin/zsh" (some "export A=1\nexport A=1\n"))).2).1
      = .ok () ∧
    countOccStr (((set_var "A" "1"
      (set_var "A" "1" (testState "/bin/zsh" (some "export A=1\nexport A=1\n"))).2).2.fileSys
      "/home/u/.zshenv").getD "") (exportLine "A" "1") = 2 := by
  decide

/-- C4 (amended): for a name and value without embedded newlines, with the
name distinct from `HOME` and `SHELL`, and starting from a profile file that
does not yet contain the exact export line: calling `set_var` twice succeeds,
the first call appends the line, the second call skips the file write (the
file systems of the two results are identical) but still sets the
process-local variable, and the persisted file holds exactly one occurrence
of `export name=value\n`. -/
theorem c4_idempotent (var value : String) (s : SysState) (p c : String)
    (hres : resolveProfile s = .ok p) (hio : s.readFault p = false)
    (hf : s.fileSys p = some c) (hw : s.writeFault p = false)
    (hni : strContains c (exportLine var value) = false)
    (hnl1 : '\n' ∉ var.toList) (hnl2 : '\n' ∉ value.toList)
    (hvh : var ≠ "HOME") (hvs : var ≠ "SHELL") :
    ∃ s₁ s₂, set_var var value s = (.ok (), s₁) ∧ set_var var value s₁ = (.ok (), s₂) ∧
      s₂.fileSys = s₁.fileSys ∧ s₂.procEnv var = some value ∧
      s₁.fileSys p = some (c ++ exportLine var value) ∧
      countOccStr (c ++ exportLine var value) (exportLine var value) = 1 := by
  have h1 := set_var_append var value s p c hres hio hf hw hni
  set s₁ := envSetVar
    { s with
      fileSys := fun q =>
        if q = p then some (c ++ exportLine var value) else s.fileSys q }
    var value with hs₁
  have hres1 : resolveProfile s₁ = .ok p := by
    have hh : s₁.procEnv "HOME" = s.procEnv "HOME" := by
      simp [hs₁, Ne.symm hvh]
    have hsh : s₁.procEnv "SHELL" = s.procEnv "SHELL" := by
      simp [hs₁, Ne.symm hvs]
    rw [resolveProfile_congr hh hsh]
    exact hres
  have hcont : strContains (c ++ exportLine var value) (exportLine var value) = true := by
    rw [strContains_iff, str_toList_app]
    exact inf_ext_left (List.infix_refl _)
  have h2 : set_var var value s₁ = (.ok (), envSetVar s₁ var value) :=
    set_var_skip var value s₁ p (c ++ exportLine var value) hres1 hio (by simp [hs₁]) hcont
  refine ⟨s₁, envSetVar s₁ var value, h1, h2, rfl, by simp, by simp [hs₁], ?_⟩
  have hq := nl_not_mem_lineBody hnl1 hnl2
  have h0 : countOcc (exportLine var value).toList c.toList = 0 :=
    countOcc_zero_of_no_sub hni
  unfold countOccStr
  rw [str_toList_app, exportLine_toList]
  rw [exportLine_toList] at h0
  rw [countOcc_app_self hq c.toList, h0]

/-- Witness for C4 (amended) on an empty profile file. -/
theorem c4_witness :
    ∃ s₁ s₂, set_var "A" "1" (testState "/bin/zsh" (some "")) = (.ok (), s₁) ∧
      set_var "A" "1" s₁ = (.ok (), s₂) ∧
      s₂.fileSys = s₁.fileSys ∧ s₂.procEnv "A" = some "1" ∧
      s₁.fileSys "/home/u/.zshenv" = some ("" ++ exportLine "A" "1") ∧
      countOccStr ("" ++ exportLine "A" "1") (exportLine "A" "1") = 1 :=
  c4_idempotent "A" "1" (testState "/bin/zsh" (some "")) "/home/u/.zshenv" ""
    (by decide) rfl rfl rfl (by decide) (by decide) (by decide) (by decide) (by decide)

/-- In a file built as `c₀ ++ "export A=1\n" ++ "export B=2\n"`, the line
`export B=2` is one of the Rust `lines()`, whatever `c₀` is. -/
theorem c8_line_mem (c₀ : String) :
    "export B=2" ∈ rustLines (c₀ ++ "export A=1\n" ++ "export B=2\n") := by
  have h1 : (c₀ ++ "export A=1\n" ++ "export B=2\n").toList
      = c₀.toList ++ ("export A=1\nexport B=2\n").toList := by
    rw [str_toList_app, str_toList_app, List.append_assoc]
    congr 1
  unfold rustLines
  rw [h1, splitNl_app]
  have h2 : splitNlChars ("export A=1\nexport B=2\n").toList
      = ["export A=1".toList, "export B=2".toList, []] := by decide
  rw [h2]
  obtain ⟨ds, x, hg⟩ := glue_shape (splitNlChars c₀.toList) (splitNl_ne_nil c₀.toList)
    "export A=1".toList ["export B=2".toList, []]
  rw [hg]
  have h3 : ds ++ (x ++ "export A=1".toList) :: ["export B=2".toList, []]
      = (ds ++ [x ++ "export A=1".toList]) ++ ["export B=2".toList, []] := by
    simp
  rw [h3, rustLinesAux_app _ _ (by simp)]
  have h4 : rustLinesAux ["export B=2".toList, []] = ["export B=2"] := by decide
  rw [h4]
  exact List.mem_append_right _ (List.mem_singleton.mpr rfl)

/-- C8: from a profile containing neither `A` nor `B`, the sequence
`set_var("A","1")`, `set_var("B","2")`, `unset_var("A")` succeeds, leaves a
profile that contains the line `export B=2\n` and no `export A=` fragment. -/
theorem c8_round_trip (s : SysState) (p c₀ : String)
    (hres : resolveProfile s = .ok p) (hio : s.readFault p = false)
    (hf : s.fileSys p = some c₀) (hw : s.writeFault p = false)
    (hA : strContains c₀ "A" = false) (hB : strContains c₀ "B" = false) :
    ∃ s₁ s₂ s₃ c₃, set_var "A" "1" s = (.ok (), s₁) ∧
      set_var "B" "2" s₁ = (.ok (), s₂) ∧ unset_var "A" s₂ = (.ok (), s₃) ∧
      s₃.fileSys p = some c₃ ∧
      strContains c₃ "export B=2\n" = true ∧
      strContains c₃ "export A=" = false := by
  have hniA : strContains c₀ (exportLine "A" "1") = false :=
    contains_mono (by decide) hA
  have h1 := set_var_append "A" "1" s p c₀ hres hio hf hw hniA
  set s₁ := envSetVar
    { s with
      fileSys := fun q =>
        if q = p then some (c₀ ++ exportLine "A" "1") else s.fileSys q }
    "A" "1" with hs₁
  have hres1 : resolveProfile s₁ = .ok p := by
    have hh : s₁.procEnv "HOME" = s.procEnv "HOME" := by simp [hs₁]
    have hsh : s₁.procEnv "SHELL" = s.procEnv "SHELL" := by simp [hs₁]
    rw [resolveProfile_congr hh hsh]
    exact hres
  have hB1 : 'B' ∉ (c₀ ++ exportLine "A" "1").toList := by
    rw [str_toList_app]
    intro hmem
    rcases List.mem_append.mp hmem with hm | hm
    · have hc : strContains c₀ "B" = true := by
        rw [strContains_iff]
        exact singleton_inf_iff.mpr hm
      rw [hc] at hB
      cases hB
    · revert hm
      decide
  have hniB : strContains (c₀ ++ exportLine "A" "1") (exportLine "B" "2") = false := by
    have hnb : strContains (c₀ ++ exportLine "A" "1") "B" = false := by
      rw [strContains_false_iff]
      intro hinf
      exact hB1 (singleton_inf_iff.mp hinf)
    exact contains_mono (by decide) hnb
  have h2 := set_var_append "B" "2" s₁ p (c₀ ++ exportLine "A" "1") hres1 hio
    (by simp [hs₁]) hw hniB
  set s₂ := envSetVar
    { s₁ with
      fileSys := fun q =>
        if q = p then some ((c₀ ++ exportLine "A" "1") ++ exportLine "B" "2")
        else s₁.fileSys q }
    "B" "2" with hs₂
  have hres2 : resolveProfile s₂ = .ok p := by
    have hh : s₂.procEnv "HOME" = s₁.procEnv "HOME" := by simp [hs₂]
    have hsh : s₂.procEnv "SHELL" = s₁.procEnv "SHELL" := by simp [hs₂]
    rw [resolveProfile_congr hh hsh]
    exact hres1
  have hkey : strContains ((c₀ ++ exportLine "A" "1") ++ exportLine "B" "2")
      (exportKey "A") = true := by
    rw [strContains_iff, str_toList_app, str_toList_app]
    have hx : (exportKey "A").toList <:+: (exportLine "A" "1").toList := by decide
    exact inf_ext_right (inf_ext_left hx)
  have h3 := unset_var_rw "A" s₂ p ((c₀ ++ exportLine "A" "1") ++ exportLine "B" "2")
    hres2 hio (by simp [hs₂]) hw hkey
  refine ⟨s₁, s₂, _,
    rejoinLines ((rustLines ((c₀ ++ exportLine "A" "1") ++ exportLine "B" "2")).filter
      (fun l => !strContains l "A")),
    h1, h2, h3, by simp, ?_, ?_⟩
  · -- the export B=2 line survives
    rw [strContains_iff, rejoin_toList]
    have e1 : exportLine "A" "1" = "export A=1\n" := by decide
    have e2 : exportLine "B" "2" = "export B=2\n" := by decide
    have hmem : "export B=2"
        ∈ rustLines ((c₀ ++ exportLine "A" "1") ++ exportLine "B" "2") := by
      rw [e1, e2]
      exact c8_line_mem c₀
    have hkept : "export B=2"
        ∈ (rustLines ((c₀ ++ exportLine "A" "1") ++ exportLine "B" "2")).filter
          (fun l => !strContains l "A") :=
      List.mem_filter.mpr ⟨hmem, by decide⟩
    have hblk := block_inf_nlBlocks hkept
    have ht : ("export B=2\n").toList = "export B=2".toList ++ ['\n'] := by decide
    rw [ht]
    exact hblk
  · -- no export A= fragment remains
    apply rejoin_not_contains (by decide) (by decide)
    intro l hl
    have h5 := (List.mem_filter.mp hl).2
    have h6 : strContains l "A" = false := by
      cases hsc : strContains l "A"
      · rfl
      · rw [hsc] at h5
        simp at h5
    exact contains_mono (by decide) h6

/-- Witness for C8 on a one-comment profile containing neither name. -/
theorem c8_witness :
    ∃ s₁ s₂ s₃ c₃,
      set_var "A" "1" (testState "/bin/zsh" (some "# profile\n")) = (.ok (), s₁) ∧
      set_var "B" "2" s₁ = (.ok (), s₂) ∧ unset_var "A" s₂ = (.ok (), s₃) ∧
      s₃.fileSys "/home/u/.zshenv" = some c₃ ∧
      strContains c₃ "export B=2\n" = true ∧
      strContains c₃ "export A=" = false :=
  c8_round_trip (testState "/bin/zsh" (some "# profile\n")) "/home/u/.zshenv"
    "# profile\n" (by decide) rfl rfl rfl (by decide) (by decide)

end GlobalEnv
